import Mathlib

/-!
Verification of the Ribbit Network frog-software release pipeline.

The release orchestrator of the repository consists of
  * the Makefile `build` recipe: remove the stale `frozen_content.c`
    intermediate, link the board directory, invoke the vendored MicroPython
    toolchain, `mkdir -p ./firmware` and `cp` the four firmware artifacts
    from the build tree into `./firmware`; and
  * the GitHub Actions workflow: checkout, submodules, test, build, then two
    independently-gated upload steps — `Upload to Golioth (Main)` guarded by
    `github.ref == 'refs/heads/main'` and `Upload to Golioth (Release)`
    guarded by `startsWith(github.ref, 'refs/tags/v')` — and an artifact
    upload.

We embed the file-system effects of the recipe (an association list of paths
to byte lists, plus a directory list and symlink list), the shell commands
the recipe uses (`rm -f`, `ln -sfn`, `mkdir -p`, multi-operand `cp`), and
the workflow's step sequencing (a step runs when no earlier step has failed
and its `if:` condition holds on the triggering ref).
-/

namespace Ribbit

/-- A model file system: files as an association list from full path to byte
content, plus the set of directories and symlinks.  Directories are tracked
only as names (`mkdir -p`); symlinks only as (link path, target). -/
structure FileSys where
  files : List (String × List Nat)
  dirs : List String
  links : List (String × String)
deriving DecidableEq

/-- First value bound to key `p` in an association list. -/
def lookupA {α : Type} : List (String × α) → String → Option α
  | [], _ => none
  | e :: l, p => if e.1 == p then some e.2 else lookupA l p

/-- Remove every binding of key `p` from an association list. -/
def removeA {α : Type} : List (String × α) → String → List (String × α)
  | [], _ => []
  | e :: l, p => if e.1 == p then removeA l p else e :: removeA l p

/-- Content of the file at path `p`, if present. -/
def lookupFile (fs : FileSys) (p : String) : Option (List Nat) :=
  lookupA fs.files p

/-- Write (create or replace) the file at path `p` with content `c`. -/
def writeFile (fs : FileSys) (p : String) (c : List Nat) : FileSys :=
  { fs with files := (p, c) :: removeA fs.files p }

/-- `rm -f p`: remove the file at `p`; succeeds whether or not it exists. -/
def rmForce (fs : FileSys) (p : String) : FileSys :=
  { fs with files := removeA fs.files p }

/-- `mkdir -p d`: create directory `d` if absent; idempotent. -/
def mkdirP (fs : FileSys) (d : String) : FileSys :=
  if fs.dirs.contains d then fs else { fs with dirs := d :: fs.dirs }

/-- `ln -sfn target p`: (re)create the symlink at `p` pointing to `target`. -/
def setLink (fs : FileSys) (p : String) (target : String) : FileSys :=
  { fs with links := (p, target) :: removeA fs.links p }

/-- Is `p` an initial run of `s`?  (List-of-characters level.) -/
def hasPre : List Char → List Char → Bool
  | [], _ => true
  | _ :: _, [] => false
  | a :: as, b :: bs => a == b && hasPre as bs

/-- `strHasPre p s` holds when the string `s` begins with `p`; this is the
semantics of the workflow expression `startsWith(github.ref, p)`. -/
def strHasPre (p s : String) : Bool := hasPre p.data s.data

/-- Is `t` a final run of `s`? (List-of-characters level.) -/
def sufAt (t s : List Char) : Bool := hasPre t.reverse s.reverse

/-- The final path component, as `cp` computes the destination file name for
a source operand copied into a directory. -/
def basenameAux : List Char → List Char → List Char
  | [], acc => acc
  | c :: cs, acc => if c = '/' then basenameAux cs [] else basenameAux cs (acc ++ [c])

/-- Base name of a path string. -/
def basename (p : String) : String := ⟨basenameAux p.data []⟩

/-- GNU `cp src₁ … srcₙ d/` semantics: operands are processed left to
right; an existing source is copied to `d/<basename>` (silently replacing
any file already there), a missing source is reported and skipped.  Returns
the resulting file system and the list of missing sources (the command's
exit status is non-zero exactly when this list is non-empty). -/
def cpIntoAux (fs : FileSys) (d : String) : List String → FileSys × List String
  | [] => (fs, [])
  | a :: rest =>
    match lookupFile fs a with
    | some c => cpIntoAux (writeFile fs ((d ++ "/") ++ basename a) c) d rest
    | none =>
      let r := cpIntoAux fs d rest
      (r.1, a :: r.2)

/-- `cp srcs d/` requires the destination directory to exist; with it absent
every operand fails and nothing is copied. -/
def cpInto (fs : FileSys) (srcs : List String) (d : String) : FileSys × List String :=
  if fs.dirs.contains d then cpIntoAux fs d srcs else (fs, srcs)

/-! ## The Makefile `build` recipe

Path constants follow the Makefile variables (`${CURDIR}` is the repository
root, written here as the empty prefix):
`MP_DIR := vendor/micropython`, `PORT_DIR := ${MP_DIR}/ports/esp32`,
`BOARD := ribbit`, `BUILD_DIR := ${PORT_DIR}/build-${BOARD}`. -/

def mpDir : String := "vendor/micropython"

def portDir : String := mpDir ++ "/ports/esp32"

def boardName : String := "ribbit"

def buildDir : String := portDir ++ ("/build-" ++ boardName)

/-- The stale intermediate removed by the recipe's first line,
`rm -f ${BUILD_DIR}/frozen_content.c`. -/
def frozenContentPath : String := buildDir ++ "/frozen_content.c"

/-- Source path of the bootloader artifact in the build tree. -/
def bootloaderSrc : String := buildDir ++ "/bootloader/bootloader.bin"

/-- Source path of the partition table artifact in the build tree. -/
def partTableSrc : String := buildDir ++ "/partition_table/partition-table.bin"

/-- Source path of the OTA initial data artifact in the build tree. -/
def otaDataSrc : String := buildDir ++ "/ota_data_initial.bin"

/-- Source path of the application image (the MicroPython firmware) in the
build tree. -/
def appImageSrc : String := buildDir ++ "/micropython.bin"

/-- The four `cp` operands of the recipe, in command order. -/
def artifactSources : List String := [bootloaderSrc, partTableSrc, otaDataSrc, appImageSrc]

/-- The bundle destination `./firmware` of the recipe. -/
def firmwareDir : String := "firmware"

/-- State of the working tree right before the external toolchain is
invoked: the recipe has run `rm -f ${BUILD_DIR}/frozen_content.c` and
`ln -sfn ${CURDIR}/board ${PORT_DIR}/boards/ribbit`. -/
def toolchainInput (fs : FileSys) : FileSys :=
  setLink (rmForce fs frozenContentPath) (portDir ++ "/boards/ribbit") "board"

/-- Outcome of one `make build` invocation: the final file system, the exit
status of `make` (0 on success; each recipe line aborts the run with a
non-zero status when it fails), and the list of artifact sources the final
`cp` reported missing. -/
structure BuildOutcome where
  fs : FileSys
  exitCode : Nat
  missingArtifacts : List String
deriving DecidableEq

/-- The bundling tail of the recipe, `mkdir -p ./firmware` followed by the
four-operand `cp` into it, generalised over the destination directory.
Returns the file system and the missing-source list (empty iff the `cp`
exits zero). -/
def bundle (fs : FileSys) (dest : String) : FileSys × List String :=
  cpInto (mkdirP fs dest) artifactSources dest

/-- The part of the recipe after the toolchain returns: on toolchain failure
`make` aborts non-zero; otherwise run the bundling tail, and fail iff the
`cp` reported a missing artifact. -/
def afterToolchain : Option FileSys → FileSys → BuildOutcome
  | none, fsIn => ⟨fsIn, 2, []⟩
  | some fs2, _ =>
    if (bundle fs2 firmwareDir).2.isEmpty then ⟨(bundle fs2 firmwareDir).1, 0, []⟩
    else ⟨(bundle fs2 firmwareDir).1, 1, (bundle fs2 firmwareDir).2⟩

/-- The whole `make build` recipe.  The external toolchain invocation
(`make -C ${PORT_DIR} BOARD=ribbit FROZEN_MANIFEST=…`) is modelled as an
opaque-to-us function `tc` from the working tree it is started on to either
a new tree or `none` for a non-zero exit. -/
def build (tc : FileSys → Option FileSys) (fs : FileSys) : BuildOutcome :=
  afterToolchain (tc (toolchainInput fs)) (toolchainInput fs)

/-! ## The GitHub Actions workflow -/

/-- The job's steps, in workflow order. -/
inductive StepId where
  | checkout
  | submodules
  | test
  | buildStep
  | uploadMain
  | uploadRelease
  | uploadArtifacts
deriving DecidableEq

/-- A deployment target as configured in an upload step's environment:
Golioth project, blueprint identifier, and whether the upload rolls out
automatically (`GOLIOTH_ROLLOUT`). -/
structure DeploymentTarget where
  project : String
  blueprint : String
  rollout : Bool
deriving DecidableEq

/-- Target of the `Upload to Golioth (Main)` step: the Beta V4 blueprint,
with `GOLIOTH_ROLLOUT: true`. -/
def betaTarget : DeploymentTarget :=
  { project := "ribbit", blueprint := "65c3ebd0f4542d968bf23817", rollout := true }

/-- Target of the `Upload to Golioth (Release)` step: the Production V4
blueprint, with `GOLIOTH_ROLLOUT: false`. -/
def productionTarget : DeploymentTarget :=
  { project := "ribbit", blueprint := "638a8a406a504ec89e7b18ee", rollout := false }

/-- A ref pattern as used by an upload step's `if:` condition: either an
exact comparison against a full ref, or a starts-with test. -/
inductive RefPat where
  | exactRef (s : String)
  | headMatch (s : String)
deriving DecidableEq

/-- Whether a pattern matches a triggering ref. -/
def RefPat.matches : RefPat → String → Bool
  | .exactRef s, ref => ref == s
  | .headMatch s, ref => strHasPre s ref

/-- The `(Main)` step's guard, `github.ref == 'refs/heads/main'`. -/
def mainPat : RefPat := .exactRef "refs/heads/main"

/-- The `(Release)` step's guard, `startsWith(github.ref, 'refs/tags/v')`. -/
def releasePat : RefPat := .headMatch "refs/tags/v"

/-- The deployment catalog the workflow encodes, in step order. -/
def defaultCatalog : List (RefPat × DeploymentTarget) :=
  [(mainPat, betaTarget), (releasePat, productionTarget)]

/-- First-match resolution of a triggering ref against a catalog. -/
def resolve (ref : String) : List (RefPat × DeploymentTarget) → Option DeploymentTarget
  | [] => none
  | (p, t) :: rest => if p.matches ref then some t else resolve ref rest

/-- The full ref GitHub assigns to a branch (`github.ref` for a push to
branch `b` is `refs/heads/b`). -/
def refOfBranch (b : String) : String := "refs/heads/" ++ b

/-- The full ref GitHub assigns to a tag (`github.ref` for a push of tag
`t` is `refs/tags/t`). -/
def refOfTag (t : String) : String := "refs/tags/" ++ t

/-- The `if:` condition of each step, as a function of the triggering ref.
Only the two upload steps are conditional. -/
def condOf (ref : String) : StepId → Bool
  | .uploadMain => mainPat.matches ref
  | .uploadRelease => releasePat.matches ref
  | _ => true

/-- The job's step list, in workflow order. -/
def stepsOrder : List StepId :=
  [.checkout, .submodules, .test, .buildStep, .uploadMain, .uploadRelease, .uploadArtifacts]

/-- GitHub Actions job semantics for this workflow: steps run in order; a
step runs iff no earlier step has failed and its `if:` condition holds on
the triggering ref (an `if:` without `always()` implies the job has not
failed); a failed step stops the job.  `ok s` says whether step `s`
succeeds when it runs.  Returns the list of steps that ran and whether the
job succeeded (exit status zero). -/
def runSteps (ref : String) (ok : StepId → Bool) : List StepId → List StepId × Bool
  | [] => ([], true)
  | s :: rest =>
    if condOf ref s then
      if ok s then
        (s :: (runSteps ref ok rest).1, (runSteps ref ok rest).2)
      else ([s], false)
    else runSteps ref ok rest

/-- One run of the workflow's `build` job. -/
def runJob (ref : String) (ok : StepId → Bool) : List StepId × Bool :=
  runSteps ref ok stepsOrder

/-! ## Lemmas about the file-system model -/

theorem lookupA_removeA {α : Type} (p q : String) (l : List (String × α)) :
    lookupA (removeA l p) q = if q = p then none else lookupA l q := by
  induction l with
  | nil => simp [removeA, lookupA]
  | cons e l ih =>
    simp only [removeA, lookupA]
    by_cases hep : e.1 = p
    · simp only [hep, beq_self_eq_true, if_true]
      rw [ih]
      by_cases hq : q = p
      · simp [hq]
      · simp [lookupA, hq, Ne.symm hq]
    · have hb : (e.1 == p) = false := by simp [hep]
      simp only [hb, Bool.false_eq_true, if_false, lookupA]
      by_cases heq : e.1 = q
      · have hqp : ¬ q = p := fun h => hep (heq.trans h)
        simp [heq, hqp]
      · have hbq : (e.1 == q) = false := by simp [heq]
        simp [hbq, ih]

theorem lookupFile_writeFile (fs : FileSys) (p : String) (c : List Nat) (q : String) :
    lookupFile (writeFile fs p c) q = if q = p then some c else lookupFile fs q := by
  simp only [lookupFile, writeFile, lookupA]
  by_cases hq : q = p
  · simp [hq]
  · have hb : (p == q) = false := by simp [Ne.symm hq]
    simp [hb, hq, lookupA_removeA]

theorem lookupFile_rmForce (fs : FileSys) (p q : String) :
    lookupFile (rmForce fs p) q = if q = p then none else lookupFile fs q :=
  lookupA_removeA p q fs.files

theorem lookupFile_mkdirP (fs : FileSys) (d p : String) :
    lookupFile (mkdirP fs d) p = lookupFile fs p := by
  unfold mkdirP
  split <;> rfl

theorem lookupFile_setLink (fs : FileSys) (l t p : String) :
    lookupFile (setLink fs l t) p = lookupFile fs p := rfl

theorem contains_mkdirP (fs : FileSys) (d : String) :
    (mkdirP fs d).dirs.contains d = true := by
  unfold mkdirP
  split
  · assumption
  · simp [List.contains_cons]

theorem isSome_lookup_writeFile (fs : FileSys) (p : String) (c : List Nat) (s : String)
    (h : (lookupFile fs s).isSome = true) :
    (lookupFile (writeFile fs p c) s).isSome = true := by
  rw [lookupFile_writeFile]
  split <;> simp_all

/-! ## String lemmas -/

theorem data_append (a b : String) : (a ++ b).data = a.data ++ b.data := by
  cases a
  cases b
  rfl

theorem hasPre_append_self : ∀ l m : List Char, hasPre l (l ++ m) = true
  | [], _ => rfl
  | a :: as, m => by simp [hasPre, hasPre_append_self as m]

/-- A string that does not end in `t` is not of the form `d ++ t`. -/
theorem ne_of_sufAt_false (s t d : String) (h : sufAt t.data s.data = false) :
    s ≠ d ++ t := by
  intro he
  rw [he, data_append] at h
  unfold sufAt at h
  rw [List.reverse_append, hasPre_append_self] at h
  exact Bool.true_eq_false.mp h

theorem append_left_cancel_str {d b b' : String} (h : d ++ b = d ++ b') : b = b' := by
  have hd : d.data ++ b.data = d.data ++ b'.data := by
    rw [← data_append, ← data_append, h]
  have hb : b.data = b'.data := List.append_cancel_left hd
  cases b
  cases b'
  exact congrArg String.mk hb

/-- Destinations computed by `cp` for two operands with different base names
are different paths. -/
theorem destPath_ne {b b' : String} (d : String) (h : b ≠ b') :
    (d ++ "/") ++ b ≠ (d ++ "/") ++ b' :=
  fun he => h (append_left_cancel_str he)

/-! ## Lemmas about `cp` and the bundling tail -/

theorem cpIntoAux_dirs : ∀ (srcs : List String) (fs : FileSys) (d : String),
    (cpIntoAux fs d srcs).1.dirs = fs.dirs := by
  intro srcs
  induction srcs with
  | nil => intro fs d; rfl
  | cons a rest ih =>
    intro fs d
    cases hl : lookupFile fs a with
    | some c => simp [cpIntoAux, hl, ih, writeFile]
    | none => simp [cpIntoAux, hl, ih]

/-- Paths that are no `cp` destination are untouched by the copy. -/
theorem cpIntoAux_lookup_off : ∀ (srcs : List String) (fs : FileSys) (d p : String),
    (∀ a ∈ srcs, p ≠ (d ++ "/") ++ basename a) →
    lookupFile (cpIntoAux fs d srcs).1 p = lookupFile fs p := by
  intro srcs
  induction srcs with
  | nil => intro fs d p _; rfl
  | cons a rest ih =>
    intro fs d p h
    cases hl : lookupFile fs a with
    | some c =>
      simp only [cpIntoAux, hl]
      rw [ih _ _ _ (fun b hb => h b (List.mem_cons_of_mem a hb))]
      rw [lookupFile_writeFile, if_neg (h a (List.mem_cons_self a rest))]
    | none =>
      simp only [cpIntoAux, hl]
      exact ih _ _ _ (fun b hb => h b (List.mem_cons_of_mem a hb))

/-- When every source exists, `cp` reports nothing missing. -/
theorem cpIntoAux_complete : ∀ (srcs : List String) (fs : FileSys) (d : String),
    (∀ s ∈ srcs, (lookupFile fs s).isSome = true) →
    (cpIntoAux fs d srcs).2 = [] := by
  intro srcs
  induction srcs with
  | nil => intro fs d _; rfl
  | cons a rest ih =>
    intro fs d h
    have ha := h a (List.mem_cons_self a rest)
    cases hl : lookupFile fs a with
    | none => rw [hl] at ha; simp at ha
    | some c =>
      simp only [cpIntoAux, hl]
      exact ih _ _ (fun s hs =>
        isSome_lookup_writeFile _ _ _ _ (h s (List.mem_cons_of_mem a hs)))

/-- A missing source that no other operand's copy can create ends up in the
missing list (so the `cp`, and with it `make build`, exits non-zero). -/
theorem cpIntoAux_missing_mem : ∀ (srcs : List String) (fs : FileSys) (d s : String),
    s ∈ srcs → lookupFile fs s = none →
    (∀ a ∈ srcs, s ≠ (d ++ "/") ++ basename a) →
    s ∈ (cpIntoAux fs d srcs).2 := by
  intro srcs
  induction srcs with
  | nil => intro fs d s hmem; cases hmem
  | cons a rest ih =>
    intro fs d s hmem hnone hne
    rcases List.mem_cons.mp hmem with heq | hmem'
    · subst heq
      simp [cpIntoAux, hnone]
    · cases hl : lookupFile fs a with
      | some c =>
        simp only [cpIntoAux, hl]
        refine ih _ _ _ hmem' ?_ (fun b hb => hne b (List.mem_cons_of_mem a hb))
        rw [lookupFile_writeFile, if_neg (hne a (List.mem_cons_self a rest))]
        exact hnone
      | none =>
        simp only [cpIntoAux, hl]
        exact List.mem_cons_of_mem a
          (ih _ _ _ hmem' hnone (fun b hb => hne b (List.mem_cons_of_mem a hb)))

/-- The central `cp` correctness fact: a present source `s` whose path no
other operand's destination aliases, and whose own destination no other
operand's destination collides with, is copied byte-for-byte to
`d/<basename s>`. -/
theorem cpIntoAux_copies : ∀ (srcs : List String) (fs : FileSys) (d s : String) (c : List Nat),
    s ∈ srcs → srcs.Nodup → lookupFile fs s = some c →
    (∀ a ∈ srcs, a ≠ s → s ≠ (d ++ "/") ++ basename a) →
    (∀ a ∈ srcs, a ≠ s → (d ++ "/") ++ basename s ≠ (d ++ "/") ++ basename a) →
    lookupFile (cpIntoAux fs d srcs).1 ((d ++ "/") ++ basename s) = some c := by
  intro srcs
  induction srcs with
  | nil => intro fs d s c hmem; cases hmem
  | cons a rest ih =>
    intro fs d s c hmem hnd hl h1 h2
    rcases List.mem_cons.mp hmem with heq | hmem'
    · subst heq
      simp only [cpIntoAux, hl]
      have hrest : ∀ b ∈ rest, (d ++ "/") ++ basename s ≠ (d ++ "/") ++ basename b := by
        intro b hb
        have hbs : b ≠ s := fun h => (List.nodup_cons.mp hnd).1 (h ▸ hb)
        exact h2 b (List.mem_cons_of_mem s hb) hbs
      rw [cpIntoAux_lookup_off rest _ d _ hrest]
      rw [lookupFile_writeFile, if_pos rfl]
    · have has : a ≠ s := fun h => (List.nodup_cons.mp hnd).1 (h ▸ hmem')
      have h1' : ∀ b ∈ rest, b ≠ s → s ≠ (d ++ "/") ++ basename b :=
        fun b hb => h1 b (List.mem_cons_of_mem a hb)
      have h2' : ∀ b ∈ rest, b ≠ s → (d ++ "/") ++ basename s ≠ (d ++ "/") ++ basename b :=
        fun b hb => h2 b (List.mem_cons_of_mem a hb)
      cases hla : lookupFile fs a with
      | some ca =>
        simp only [cpIntoAux, hla]
        refine ih _ _ _ _ hmem' (List.nodup_cons.mp hnd).2 ?_ h1' h2'
        rw [lookupFile_writeFile, if_neg (h1 a (List.mem_cons_self a rest) has)]
        exact hl
      | none =>
        simp only [cpIntoAux, hla]
        exact ih _ _ _ _ hmem' (List.nodup_cons.mp hnd).2 hl h1' h2'

theorem bundle_eq (fs : FileSys) (d : String) :
    bundle fs d = cpIntoAux (mkdirP fs d) d artifactSources := by
  unfold bundle cpInto
  rw [if_pos (contains_mkdirP fs d)]

theorem bundle_dirs_contains (fs : FileSys) (d : String) :
    (bundle fs d).1.dirs.contains d = true := by
  rw [bundle_eq, cpIntoAux_dirs]
  exact contains_mkdirP fs d

/-! ## Lemmas about the workflow semantics -/

theorem runSteps_sublist (ref : String) (ok : StepId → Bool) :
    ∀ l : List StepId, List.Sublist (runSteps ref ok l).1 l := by
  intro l
  induction l with
  | nil => exact List.Sublist.refl []
  | cons s rest ih =>
    simp only [runSteps]
    by_cases hc : condOf ref s = true
    · rw [if_pos hc]
      by_cases ho : ok s = true
      · rw [if_pos ho]
        exact List.Sublist.cons₂ s ih
      · rw [if_neg ho]
        exact List.Sublist.cons₂ s (List.nil_sublist rest)
    · rw [if_neg hc]
      exact List.Sublist.cons s ih

theorem mem_runSteps_cond (ref : String) (ok : StepId → Bool) :
    ∀ l : List StepId, ∀ s ∈ (runSteps ref ok l).1, condOf ref s = true := by
  intro l
  induction l with
  | nil => intro s hs; cases hs
  | cons a rest ih =>
    intro s hs
    simp only [runSteps] at hs
    by_cases hc : condOf ref a = true
    · rw [if_pos hc] at hs
      by_cases ho : ok a = true
      · rw [if_pos ho] at hs
        rcases List.mem_cons.mp hs with heq | hmem
        · exact heq ▸ hc
        · exact ih s hmem
      · rw [if_neg ho] at hs
        rcases List.mem_singleton.mp hs with heq
        exact heq ▸ hc
    · rw [if_neg hc] at hs
      exact ih s hs

theorem resolve_default_eq (ref : String) :
    resolve ref defaultCatalog =
      if mainPat.matches ref then some betaTarget
      else if releasePat.matches ref then some productionTarget
      else none := rfl

theorem matches_main_false_of_resolve_none {ref : String}
    (h : resolve ref defaultCatalog = none) : mainPat.matches ref = false := by
  by_contra hc
  rw [resolve_default_eq, if_pos (Bool.of_not_eq_false hc)] at h
  cases h

theorem matches_release_false_of_resolve_none {ref : String}
    (h : resolve ref defaultCatalog = none) : releasePat.matches ref = false := by
  have hm := matches_main_false_of_resolve_none h
  by_contra hc
  rw [resolve_default_eq, hm] at h
  simp only [Bool.false_eq_true, if_false] at h
  rw [if_pos (Bool.of_not_eq_false hc)] at h
  cases h

/-- The `cp` operands have pairwise different paths. -/
theorem artifactSources_nodup : artifactSources.Nodup := by decide

theorem mem_artifactSources {s : String} (hs : s ∈ artifactSources) :
    s = bootloaderSrc ∨ s = partTableSrc ∨ s = otaDataSrc ∨ s = appImageSrc := by
  simpa [artifactSources, List.mem_cons] using hs

/-- No artifact's build-tree path can be the `cp` destination of a
different operand, whatever the destination directory: its path does not
end in the other operand's base name. -/
theorem artifact_src_ne_dest (d : String) :
    ∀ s ∈ artifactSources, ∀ a ∈ artifactSources, a ≠ s →
      s ≠ (d ++ "/") ++ basename a := by
  intro s hs a ha hne
  rcases mem_artifactSources hs with rfl | rfl | rfl | rfl <;>
    rcases mem_artifactSources ha with rfl | rfl | rfl | rfl <;>
      first
        | exact absurd rfl hne
        | exact ne_of_sufAt_false _ _ _ (by decide)

/-- Distinct operands have distinct `cp` destinations: their base names
differ. -/
theorem artifact_dest_ne_dest (d : String) :
    ∀ s ∈ artifactSources, ∀ a ∈ artifactSources, a ≠ s →
      (d ++ "/") ++ basename s ≠ (d ++ "/") ++ basename a := by
  intro s hs a ha hne
  rcases mem_artifactSources hs with rfl | rfl | rfl | rfl <;>
    rcases mem_artifactSources ha with rfl | rfl | rfl | rfl <;>
      first
        | exact absurd rfl hne
        | exact destPath_ne d (by decide)

/-- Each artifact present in the tree is copied byte-for-byte to
`dest/<its base name>` by the bundling tail. -/
theorem bundle_copies (fs : FileSys) (d : String) (s : String) (c : List Nat)
    (hs : s ∈ artifactSources) (hl : lookupFile fs s = some c) :
    lookupFile (bundle fs d).1 ((d ++ "/") ++ basename s) = some c := by
  rw [bundle_eq]
  refine cpIntoAux_copies artifactSources (mkdirP fs d) d s c hs artifactSources_nodup
    ?_ ?_ ?_
  · rw [lookupFile_mkdirP]; exact hl
  · exact fun a ha hne => artifact_src_ne_dest d s hs a ha hne
  · exact fun a ha hne => artifact_dest_ne_dest d s hs a ha hne

/-- When every artifact is present, the bundling `cp` reports nothing
missing. -/
theorem bundle_complete (fs : FileSys) (d : String)
    (h : ∀ s ∈ artifactSources, (lookupFile fs s).isSome = true) :
    (bundle fs d).2 = [] := by
  rw [bundle_eq]
  exact cpIntoAux_complete _ _ _ (fun s hs => by rw [lookupFile_mkdirP]; exact h s hs)

/-- If the `cp` reported nothing missing, every operand's destination file
exists in the result. -/
theorem cpIntoAux_empty_missing_dest : ∀ (srcs : List String) (fs : FileSys) (d s : String),
    s ∈ srcs → srcs.Nodup →
    (cpIntoAux fs d srcs).2 = [] →
    (∀ x ∈ srcs, ∀ y ∈ srcs, y ≠ x → (d ++ "/") ++ basename x ≠ (d ++ "/") ++ basename y) →
    ∃ c, lookupFile (cpIntoAux fs d srcs).1 ((d ++ "/") ++ basename s) = some c := by
  intro srcs
  induction srcs with
  | nil => intro fs d s hmem; cases hmem
  | cons a rest ih =>
    intro fs d s hmem hnd hempty hp
    rcases List.mem_cons.mp hmem with heq | hmem'
    · subst heq
      cases hl : lookupFile fs s with
      | none => rw [show cpIntoAux fs d (s :: rest) =
            ((cpIntoAux fs d rest).1, s :: (cpIntoAux fs d rest).2) from by
              simp [cpIntoAux, hl]] at hempty
                 ; cases hempty
      | some c =>
        refine ⟨c, ?_⟩
        simp only [cpIntoAux, hl]
        have hrest : ∀ b ∈ rest, (d ++ "/") ++ basename s ≠ (d ++ "/") ++ basename b := by
          intro b hb
          have hbs : b ≠ s := fun h => (List.nodup_cons.mp hnd).1 (h ▸ hb)
          exact hp s (List.mem_cons_self s rest) b (List.mem_cons_of_mem s hb) hbs
        rw [cpIntoAux_lookup_off rest _ d _ hrest]
        rw [lookupFile_writeFile, if_pos rfl]
    · have hp' : ∀ x ∈ rest, ∀ y ∈ rest, y ≠ x →
          (d ++ "/") ++ basename x ≠ (d ++ "/") ++ basename y :=
        fun x hx y hy => hp x (List.mem_cons_of_mem a hx) y (List.mem_cons_of_mem a hy)
      cases hl : lookupFile fs a with
      | none =>
        rw [show cpIntoAux fs d (a :: rest) =
            ((cpIntoAux fs d rest).1, a :: (cpIntoAux fs d rest).2) from by
              simp [cpIntoAux, hl]] at hempty
        cases hempty
      | some ca =>
        simp only [cpIntoAux, hl] at hempty ⊢
        exact ih _ _ _ hmem' (List.nodup_cons.mp hnd).2 hempty hp'

/-- One run of the workflow with the build step's success taken from the
`make build` outcome on tree `fs` with toolchain `tc`; `ok` gives the other
steps' outcomes. -/
def runPipeline (ref : String) (tc : FileSys → Option FileSys) (fs : FileSys)
    (ok : StepId → Bool) : List StepId × Bool :=
  runSteps ref
    (fun s => if s = StepId.buildStep then (build tc fs).exitCode == 0 else ok s)
    stepsOrder

/-- When the build step fails, neither upload step runs. -/
theorem upload_not_run_of_build_failed (ref : String) (ok : StepId → Bool)
    (hb : ok .buildStep = false) :
    StepId.uploadMain ∉ (runSteps ref ok stepsOrder).1 ∧
    StepId.uploadRelease ∉ (runSteps ref ok stepsOrder).1 := by
  cases h1 : ok .checkout <;> cases h2 : ok .submodules <;> cases h3 : ok .test <;>
    simp [stepsOrder, runSteps, condOf, h1, h2, h3, hb]

/-- Number of times a given step executed within one workflow run. -/
def publishAttempts (ref : String) (ok : StepId → Bool) (s : StepId) : Nat :=
  (runJob ref ok).1.count s

/-- Modelled from the spec: the upload script `tools/upload-to-golioth.py`
is not among the given sources (only its workflow invocation is).  Per §4.4
a single invocation publishes the bundle under the target configured in its
environment and issues at most one rollout command: exactly one when the
target's `GOLIOTH_ROLLOUT` is true and the publish succeeds, none
otherwise; rollout issuance is not part of any retry loop. -/
def rolloutCommandsPerInvocation (t : DeploymentTarget) (succeeded : Bool) : Nat :=
  if t.rollout && succeeded then 1 else 0

/-- Rollout commands issued over one workflow run: each executed upload step
invokes the script once, with its step's target; `succ s` says whether that
invocation's publish succeeded. -/
def rolloutsIssued (ref : String) (ok : StepId → Bool) (succ : StepId → Bool) : Nat :=
  (runJob ref ok).1.count .uploadMain
      * rolloutCommandsPerInvocation betaTarget (succ .uploadMain)
    + (runJob ref ok).1.count .uploadRelease
      * rolloutCommandsPerInvocation productionTarget (succ .uploadRelease)

/-- C1: For the default deployment catalog, resolving the default-branch ref
(`refs/heads/main`, i.e. branch `main`) selects the beta target with
rollout = true; resolving any ref beginning with the version-tag prefix
`refs/tags/v` (e.g. tag `v1.2.0`) selects the production target with
rollout = false; and resolving any other ref (e.g. branch `feature/x`)
selects no target. -/
theorem resolve_default_catalog :
    (resolve (refOfBranch "main") defaultCatalog = some betaTarget
      ∧ betaTarget.rollout = true)
    ∧ (∀ ref : String, strHasPre "refs/tags/v" ref = true →
        resolve ref defaultCatalog = some productionTarget
          ∧ productionTarget.rollout = false)
    ∧ (∀ ref : String, ref ≠ refOfBranch "main" → strHasPre "refs/tags/v" ref = false →
        resolve ref defaultCatalog = none) := by
  refine ⟨⟨by decide, by decide⟩, ?_, ?_⟩
  · intro ref h
    rw [resolve_default_eq]
    by_cases hm : mainPat.matches ref = true
    · have hrefl : ref = "refs/heads/main" := by
        simpa [mainPat, RefPat.matches] using hm
      rw [hrefl] at h
      exact absurd h (by decide)
    · rw [if_neg hm, if_pos (show releasePat.matches ref = true from h)]
      exact ⟨rfl, by decide⟩
  · intro ref hne h
    have hmain : refOfBranch "main" = "refs/heads/main" := by decide
    rw [hmain] at hne
    have hm : ¬ mainPat.matches ref = true := by
      simp [mainPat, RefPat.matches, hne]
    have hr : ¬ releasePat.matches ref = true := by
      simp only [releasePat, RefPat.matches, h]
      exact Bool.false_ne_true
    rw [resolve_default_eq, if_neg hm, if_neg hr]

/-- Witness for C1: the version tag `v1.2.0` resolves to the production
target and the feature branch `feature/x` resolves to no target. -/
theorem resolve_default_catalog_witness :
    resolve (refOfTag "v1.2.0") defaultCatalog = some productionTarget ∧
    resolve (refOfBranch "feature/x") defaultCatalog = none :=
  ⟨(resolve_default_catalog.2.1 (refOfTag "v1.2.0") (by decide)).1,
   resolve_default_catalog.2.2 (refOfBranch "feature/x") (by decide) (by decide)⟩

/-- C2: For every triggering ref that matches no catalog entry, neither
upload step runs and the job succeeds (exit zero, given that the steps that
do run succeed): a non-matching ref is never treated as an error. -/
theorem no_target_no_upload :
    ∀ (ref : String) (ok : StepId → Bool),
      resolve ref defaultCatalog = none →
      (∀ s, ok s = true) →
      StepId.uploadMain ∉ (runJob ref ok).1 ∧
      StepId.uploadRelease ∉ (runJob ref ok).1 ∧
      (runJob ref ok).2 = true := by
  intro ref ok hres hok
  have hm := matches_main_false_of_resolve_none hres
  have hr := matches_release_false_of_resolve_none hres
  have hrun : runJob ref ok =
      ([.checkout, .submodules, .test, .buildStep, .uploadArtifacts], true) := by
    simp [runJob, stepsOrder, runSteps, condOf, hm, hr, hok]
  rw [hrun]
  refine ⟨?_, ?_, rfl⟩ <;> decide

/-- Witness for C2: the feature branch `feature/x` triggers no upload and
the job succeeds. -/
theorem no_target_no_upload_witness :
    StepId.uploadMain ∉ (runJob (refOfBranch "feature/x") (fun _ => true)).1 ∧
    StepId.uploadRelease ∉ (runJob (refOfBranch "feature/x") (fun _ => true)).1 ∧
    (runJob (refOfBranch "feature/x") (fun _ => true)).2 = true :=
  no_target_no_upload (refOfBranch "feature/x") (fun _ => true) (by decide) (fun _ => rfl)

/-- C9: Within one pipeline run each upload step — hence the publish for
each resolved target — executes at most once, and at most one rollout
command is issued in the whole run; re-running the workflow is the only way
to issue another. -/
theorem publish_at_most_once :
    ∀ (ref : String) (ok succ : StepId → Bool),
      publishAttempts ref ok .uploadMain ≤ 1 ∧
      publishAttempts ref ok .uploadRelease ≤ 1 ∧
      rolloutsIssued ref ok succ ≤ 1 := by
  intro ref ok succ
  have hsub := runSteps_sublist ref ok stepsOrder
  have h1 : publishAttempts ref ok .uploadMain ≤ 1 := by
    have := hsub.count_le StepId.uploadMain
    simpa [publishAttempts, runJob] using this
  have h2 : publishAttempts ref ok .uploadRelease ≤ 1 := by
    have := hsub.count_le StepId.uploadRelease
    simpa [publishAttempts, runJob] using this
  refine ⟨h1, h2, ?_⟩
  have hprod : rolloutCommandsPerInvocation productionTarget (succ .uploadRelease) = 0 := by
    simp [rolloutCommandsPerInvocation, productionTarget]
  have hbeta : rolloutCommandsPerInvocation betaTarget (succ .uploadMain) ≤ 1 := by
    simp only [rolloutCommandsPerInvocation]
    split <;> simp
  calc rolloutsIssued ref ok succ
      = (runJob ref ok).1.count .uploadMain
          * rolloutCommandsPerInvocation betaTarget (succ .uploadMain) := by
        simp [rolloutsIssued, hprod]
    _ ≤ 1 * 1 := Nat.mul_le_mul (by simpa [publishAttempts] using h1) hbeta
    _ = 1 := Nat.one_mul 1

/-- C10: the two upload gate conditions are disjoint — no ref both equals
`refs/heads/main` and starts with `refs/tags/v` — so at most one of the two
upload steps can execute in any run, although the two `if:` conditions are
evaluated independently. -/
theorem upload_conditions_disjoint :
    (∀ ref : String, (condOf ref .uploadMain && condOf ref .uploadRelease) = false)
    ∧ ∀ (ref : String) (ok : StepId → Bool),
        (runJob ref ok).1.count .uploadMain + (runJob ref ok).1.count .uploadRelease ≤ 1 := by
  constructor
  · intro ref
    by_cases hm : condOf ref .uploadMain = true
    · have hrefl : ref = "refs/heads/main" := by
        simpa [condOf, mainPat, RefPat.matches] using hm
      rw [hrefl]
      decide
    · rw [Bool.eq_false_iff.mpr hm, Bool.false_and]
  · intro ref ok
    have hsub := runSteps_sublist ref ok stepsOrder
    by_cases hm : condOf ref .uploadMain = true
    · have hrefl : ref = "refs/heads/main" := by
        simpa [condOf, mainPat, RefPat.matches] using hm
      have hr : condOf ref .uploadRelease = false := by rw [hrefl]; decide
      have hnot : StepId.uploadRelease ∉ (runJob ref ok).1 := by
        intro hmem
        have := mem_runSteps_cond ref ok stepsOrder _ hmem
        rw [hr] at this
        cases this
      rw [List.count_eq_zero.mpr hnot]
      have := hsub.count_le StepId.uploadMain
      have hone : List.count StepId.uploadMain stepsOrder = 1 := by decide
      rw [hone] at this
      simp only [runJob]
      omega
    · have hnot : StepId.uploadMain ∉ (runJob ref ok).1 := by
        intro hmem
        have := mem_runSteps_cond ref ok stepsOrder _ hmem
        exact hm this
      rw [List.count_eq_zero.mpr hnot]
      have := hsub.count_le StepId.uploadRelease
      have hone : List.count StepId.uploadRelease stepsOrder = 1 := by decide
      rw [hone] at this
      simp only [runJob]
      omega

/-! ## Claims about the Builder and Bundler -/

/-- A sample post-toolchain working tree holding all four artifacts. -/
def sampleTree : FileSys :=
  ⟨[(bootloaderSrc, [1]), (partTableSrc, [2]), (otaDataSrc, [3]), (appImageSrc, [4])],
   [], []⟩

/-- Counterexample to C3: bundling a complete artifact set succeeds, yet no
destination file carries the spec's logical name `application-image`; the
application image lands under the build tool's internal base name
`micropython.bin` instead. -/
theorem bundle_logical_name_counterexample :
    (bundle sampleTree firmwareDir).2 = [] ∧
    lookupFile (bundle sampleTree firmwareDir).1 "firmware/application-image" = none ∧
    lookupFile (bundle sampleTree firmwareDir).1 "firmware/micropython.bin" = some [4] := by
  refine ⟨by decide, by decide, by decide⟩

/-- C3 amended: bundling copies each of the four artifacts into the
destination under the base name of its build-tree path — `bootloader.bin`,
`partition-table.bin`, `ota_data_initial.bin`, `micropython.bin` — i.e. the
output filename is inherited from the build tool's internal naming (these
are the fixed names the flash step depends on), not a renamed logical name;
the bytes are passed through unchanged. -/
theorem bundle_uses_internal_basenames :
    ∀ (fs : FileSys) (src : String) (c : List Nat),
      src ∈ artifactSources → lookupFile fs src = some c →
      lookupFile (bundle fs firmwareDir).1 ((firmwareDir ++ "/") ++ basename src) = some c ∧
      [basename bootloaderSrc, basename partTableSrc, basename otaDataSrc,
        basename appImageSrc]
        = ["bootloader.bin", "partition-table.bin", "ota_data_initial.bin",
           "micropython.bin"] :=
  fun fs src c hs hl => ⟨bundle_copies fs firmwareDir src c hs hl, by decide⟩

/-- Witness for C3 (amended): the bootloader of the sample tree is bundled
to `firmware/bootloader.bin` with its bytes intact. -/
theorem bundle_uses_internal_basenames_witness :
    lookupFile (bundle sampleTree firmwareDir).1
        ((firmwareDir ++ "/") ++ basename bootloaderSrc) = some [1] ∧
    [basename bootloaderSrc, basename partTableSrc, basename otaDataSrc,
      basename appImageSrc]
      = ["bootloader.bin", "partition-table.bin", "ota_data_initial.bin",
         "micropython.bin"] :=
  bundle_uses_internal_basenames sampleTree bootloaderSrc [1] (by decide) (by decide)

/-- A toolchain run producing the three support artifacts with content but
an empty application image. -/
def emptyAppToolchain : FileSys → Option FileSys :=
  fun f =>
    some (writeFile (writeFile (writeFile (writeFile f bootloaderSrc [1])
      partTableSrc [2]) otaDataSrc [3]) appImageSrc [])

/-- Counterexample to C4: `make build` exits zero although the application
image it bundled is empty — the recipe checks existence (via `cp`), never
non-emptiness. -/
theorem build_empty_artifact_counterexample :
    (build emptyAppToolchain ⟨[], [], []⟩).exitCode = 0 ∧
    lookupFile (build emptyAppToolchain ⟨[], [], []⟩).fs "firmware/micropython.bin"
      = some [] := by
  refine ⟨by decide, by decide⟩

/-- C4 amended: a `make build` run that exits zero leaves all four named
artifacts as (readable, possibly empty) files under `firmware/`;
contrapositively, a run after which any of the four is missing exited
non-zero — but non-emptiness is not guaranteed. -/
theorem build_success_artifacts :
    ∀ (tc : FileSys → Option FileSys) (fs : FileSys),
      (build tc fs).exitCode = 0 →
      ∀ src ∈ artifactSources,
        (lookupFile (build tc fs).fs ((firmwareDir ++ "/") ++ basename src)).isSome
          = true := by
  intro tc fs h src hs
  cases htc : tc (toolchainInput fs) with
  | none => rw [build, htc] at h; cases h
  | some fs2 =>
    rw [build, htc] at h ⊢
    by_cases hm : (bundle fs2 firmwareDir).2.isEmpty = true
    · have hmiss : (bundle fs2 firmwareDir).2 = [] := by
        simpa using hm
      simp only [afterToolchain, hm, if_true]
      rw [bundle_eq] at hmiss ⊢
      obtain ⟨c, hc⟩ := cpIntoAux_empty_missing_dest artifactSources
        (mkdirP fs2 firmwareDir) firmwareDir src hs artifactSources_nodup hmiss
        (fun x hx y hy hne => artifact_dest_ne_dest firmwareDir x hx y hy hne)
      rw [hc]
      rfl
    · exfalso
      simp only [afterToolchain, hm, if_false] at h
      cases h

/-- Witness for C4 (amended): the empty-application-image toolchain run
exits zero and indeed leaves `firmware/bootloader.bin` in place. -/
theorem build_success_artifacts_witness :
    (lookupFile (build emptyAppToolchain ⟨[], [], []⟩).fs
        ((firmwareDir ++ "/") ++ basename bootloaderSrc)).isSome = true :=
  build_success_artifacts emptyAppToolchain ⟨[], [], []⟩ (by decide)
    bootloaderSrc (by decide)

/-- C5: in every `make build` invocation the stale `frozen_content.c`
intermediate is removed before the toolchain starts: the recipe applies the
toolchain exactly to `toolchainInput fs` (second conjunct, definitional),
and that tree never contains `frozen_content.c` (first conjunct). -/
theorem toolchain_sees_no_stale_frozen_content :
    ∀ (tc : FileSys → Option FileSys) (fs : FileSys),
      lookupFile (toolchainInput fs) frozenContentPath = none ∧
      build tc fs = afterToolchain (tc (toolchainInput fs)) (toolchainInput fs) := by
  intro tc fs
  refine ⟨?_, rfl⟩
  show lookupFile (rmForce fs frozenContentPath) frozenContentPath = none
  rw [lookupFile_rmForce, if_pos rfl]

/-- C6: when the toolchain's output tree is missing the application image,
`make build` fails: the `cp` names `micropython.bin` (the application
image) among its missing operands, the exit status is non-zero, and in the
workflow run neither upload step executes, so the partial `firmware/`
directory is never published. -/
theorem bundle_missing_app_image_fails :
    ∀ (tc : FileSys → Option FileSys) (fs fs2 : FileSys) (ref : String)
      (ok : StepId → Bool),
      tc (toolchainInput fs) = some fs2 →
      lookupFile fs2 appImageSrc = none →
      appImageSrc ∈ (build tc fs).missingArtifacts ∧
      (build tc fs).exitCode ≠ 0 ∧
      StepId.uploadMain ∉ (runPipeline ref tc fs ok).1 ∧
      StepId.uploadRelease ∉ (runPipeline ref tc fs ok).1 := by
  intro tc fs fs2 ref ok htc hnone
  have hmem : appImageSrc ∈ (bundle fs2 firmwareDir).2 := by
    rw [bundle_eq]
    refine cpIntoAux_missing_mem artifactSources (mkdirP fs2 firmwareDir) firmwareDir
      appImageSrc (by decide) ?_ ?_
    · rw [lookupFile_mkdirP]; exact hnone
    · intro a ha
      rcases mem_artifactSources ha with rfl | rfl | rfl | rfl <;> decide
  have hne : (bundle fs2 firmwareDir).2.isEmpty = false := by
    cases hmm : (bundle fs2 firmwareDir).2 with
    | nil => rw [hmm] at hmem; cases hmem
    | cons a l => rfl
  have hout : build tc fs =
      ⟨(bundle fs2 firmwareDir).1, 1, (bundle fs2 firmwareDir).2⟩ := by
    rw [build, htc]
    simp [afterToolchain, hne]
  refine ⟨by rw [hout]; exact hmem, by rw [hout]; exact one_ne_zero, ?_, ?_⟩ <;>
    · have hb : (fun s => if s = StepId.buildStep then (build tc fs).exitCode == 0
          else ok s) StepId.buildStep = false := by
        rw [hout]
        rfl
      have := upload_not_run_of_build_failed ref
        (fun s => if s = StepId.buildStep then (build tc fs).exitCode == 0 else ok s) hb
      first
        | exact this.1
        | exact this.2

/-- The toolchain run used as the C6 witness: produces everything except
the application image. -/
def noAppToolchain : FileSys → Option FileSys :=
  fun f =>
    some (writeFile (writeFile (writeFile f bootloaderSrc [1]) partTableSrc [2])
      otaDataSrc [3])

/-- The tree that witness toolchain hands back for an empty starting tree. -/
def noAppTree : FileSys :=
  writeFile (writeFile (writeFile (toolchainInput ⟨[], [], []⟩) bootloaderSrc [1])
    partTableSrc [2]) otaDataSrc [3]

/-- Witness for C6: a run on the main branch whose toolchain produced no
application image fails and uploads nothing. -/
theorem bundle_missing_app_image_fails_witness :
    appImageSrc ∈ (build noAppToolchain ⟨[], [], []⟩).missingArtifacts ∧
    (build noAppToolchain ⟨[], [], []⟩).exitCode ≠ 0 ∧
    StepId.uploadMain ∉
      (runPipeline "refs/heads/main" noAppToolchain ⟨[], [], []⟩ (fun _ => true)).1 ∧
    StepId.uploadRelease ∉
      (runPipeline "refs/heads/main" noAppToolchain ⟨[], [], []⟩ (fun _ => true)).1 :=
  bundle_missing_app_image_fails noAppToolchain ⟨[], [], []⟩ noAppTree "refs/heads/main"
    (fun _ => true) rfl (by decide)

/-- A working tree where all four artifacts exist and the bundle
destination already holds a bootloader from an earlier bundle. -/
def preBundledTree : FileSys :=
  ⟨[("firmware/bootloader.bin", [9]), (bootloaderSrc, [1]), (partTableSrc, [2]),
    (otaDataSrc, [3]), (appImageSrc, [4])], ["firmware"], []⟩

/-- Counterexample to C7: bundling into a destination that already contains
a bundle neither fails nor is skipped — the `cp` succeeds and silently
replaces the existing `firmware/bootloader.bin`. -/
theorem bundle_overwrite_counterexample :
    lookupFile preBundledTree "firmware/bootloader.bin" = some [9] ∧
    (bundle preBundledTree firmwareDir).2 = [] ∧
    lookupFile (bundle preBundledTree firmwareDir).1 "firmware/bootloader.bin"
      = some [1] := by
  refine ⟨by decide, by decide, by decide⟩

/-- C7 amended: bundling creates the destination directory when absent
(`mkdir -p`), but performs no conflict check: even when the destination
already holds a file under an artifact's output name, the copy succeeds and
silently overwrites it with the artifact's bytes. -/
theorem bundle_mkdir_and_overwrite :
    ∀ (fs : FileSys) (dest src : String) (c c₀ : List Nat),
      src ∈ artifactSources →
      lookupFile fs src = some c →
      lookupFile fs ((dest ++ "/") ++ basename src) = some c₀ →
      (bundle fs dest).1.dirs.contains dest = true ∧
      lookupFile (bundle fs dest).1 ((dest ++ "/") ++ basename src) = some c :=
  fun fs dest src c _ hs hl _ =>
    ⟨bundle_dirs_contains fs dest, bundle_copies fs dest src c hs hl⟩

/-- Witness for C7 (amended): the pre-populated destination is silently
overwritten. -/
theorem bundle_mkdir_and_overwrite_witness :
    (bundle preBundledTree firmwareDir).1.dirs.contains firmwareDir = true ∧
    lookupFile (bundle preBundledTree firmwareDir).1
        ((firmwareDir ++ "/") ++ basename bootloaderSrc) = some [1] :=
  bundle_mkdir_and_overwrite preBundledTree firmwareDir bootloaderSrc [1] [9]
    (by decide) (by decide) (by decide)

/-- C8: bundling is pure with respect to file content — bundling the same
complete artifact set into two different destinations stores, for each
artifact, exactly the source's bytes in both destinations (hence
byte-identical bundles, passed through unmodified). -/
theorem bundle_pure_content :
    ∀ (fs : FileSys) (d₁ d₂ src : String) (c : List Nat),
      src ∈ artifactSources → lookupFile fs src = some c →
      lookupFile (bundle fs d₁).1 ((d₁ ++ "/") ++ basename src) = some c ∧
      lookupFile (bundle fs d₂).1 ((d₂ ++ "/") ++ basename src) = some c :=
  fun fs d₁ d₂ src c hs hl =>
    ⟨bundle_copies fs d₁ src c hs hl, bundle_copies fs d₂ src c hs hl⟩

/-- Witness for C8: the sample tree's application image is bundled with the
same bytes into both `firmware` and `out`. -/
theorem bundle_pure_content_witness :
    lookupFile (bundle sampleTree "firmware").1
        (("firmware" ++ "/") ++ basename appImageSrc) = some [4] ∧
    lookupFile (bundle sampleTree "out").1
        (("out" ++ "/") ++ basename appImageSrc) = some [4] :=
  bundle_pure_content sampleTree "firmware" "out" appImageSrc [4] (by decide) (by decide)

end Ribbit
